import Mathlib

/-!
A shallow embedding of `ControlledLayer.py` (SpikingControllerNet).

Tensors of floats are modelled as functions `Fin n → ℚ`; matrices (the
`torch.nn.Linear` weights) as `Fin m → Fin n → ℚ`.  The library sigmoid
(`torch.sigmoid`, a transcendental function of the external numeric
library) is modelled as an abstract parameter `σ : ℚ → ℚ`; the ambient
random stream consumed by `torch.rand_like` is modelled as an explicit
stream `rng : ℕ → ℚ` together with a position counter that is threaded
through every call.  Python's falsy values (`stdp_tau=False` or `0`) are
encoded as the rational `0`.
-/

namespace SpikingControllerNet

/-- Matrix-vector product of a `torch.nn.Linear` layer with `bias=False`. -/
def matVec {m n : ℕ} (W : Fin m → Fin n → ℚ) (x : Fin n → ℚ) : Fin m → ℚ :=
  fun i => ∑ j, W i j * x j

/-- `spikify(rate) = (rate > torch.rand_like(rate))*1`, with the random draw
made explicit as a vector `r`. -/
def spikify {n : ℕ} (rate : Fin n → ℚ) (r : Fin n → ℚ) : Fin n → ℚ :=
  fun i => if r i < rate i then 1 else 0

/-- The two dynamics modes accepted by the constructor's assertion. -/
inductive Mode where
  | spiking
  | rate
  deriving DecidableEq, Repr

/-- State and configuration of one `ControlledLayer` (fields of `self`).
`stdpTau = 0` encodes Python's falsy `stdp_tau` (`False` or `0`);
`grad = none` encodes `ff.weight.grad is None`. -/
structure ControlledLayer (fanIn fanOut ctrlDim : ℕ) where
  leak : ℚ
  threshold : ℚ
  mode : Mode
  ffWeight : Fin fanOut → Fin fanIn → ℚ
  fbWeight : Fin fanOut → Fin ctrlDim → ℚ
  stdpTau : ℚ
  v : Fin fanOut → ℚ
  Apre : Fin fanIn → ℚ
  Apost : Fin fanOut → ℚ
  grad : Option (Fin fanOut → Fin fanIn → ℚ)

namespace ControlledLayer

variable {fanIn fanOut ctrlDim : ℕ}

/-- `self.stdp_decay = 1 - 1 / stdp_tau if stdp_tau else False`
(`False` and `0.0` are the same falsy value, encoded as `0`). -/
def stdpDecay (l : ControlledLayer fanIn fanOut ctrlDim) : ℚ :=
  if l.stdpTau = 0 then 0 else 1 - 1 / l.stdpTau

/-- `ControlledLayer.__init__`: threshold fixed at `1.`, feed-forward
weights from the library initializer (passed in as `ffW`), feedback weights
set by `torch.nn.init.eye_`, `reset()` zeroing `v`, traces starting at zero,
no gradient buffer allocated yet. -/
def init (fanIn fanOut ctrlDim : ℕ) (mode : Mode) (leak stdpTau : ℚ)
    (ffW : Fin fanOut → Fin fanIn → ℚ) : ControlledLayer fanIn fanOut ctrlDim :=
  { leak := leak
    threshold := 1
    mode := mode
    ffWeight := ffW
    fbWeight := fun i j => if (i : ℕ) = (j : ℕ) then 1 else 0
    stdpTau := stdpTau
    v := fun _ => 0
    Apre := fun _ => 0
    Apost := fun _ => 0
    grad := none }

/-- `ControlledLayer._spiking_dynamics`: `spikes = v > threshold`;
`v[spikes] = 0.`; returns `(spikes.float(), v after reset)`. -/
def spikingDynamics {n : ℕ} (threshold : ℚ) (v : Fin n → ℚ) :
    (Fin n → ℚ) × (Fin n → ℚ) :=
  (fun i => if threshold < v i then 1 else 0,
   fun i => if threshold < v i then 0 else v i)

/-- `ControlledLayer._rate_dynamics`: `torch.sigmoid(self.v)`, leaving `v`
untouched; the library sigmoid is the abstract parameter `σ`. -/
def rateDynamics {n : ℕ} (σ : ℚ → ℚ) (v : Fin n → ℚ) :
    (Fin n → ℚ) × (Fin n → ℚ) :=
  (fun i => σ (v i), v)

/-- `self.dynamics`, selected from the mode at construction. -/
def dynamicsOf (σ : ℚ → ℚ) (l : ControlledLayer fanIn fanOut ctrlDim)
    (v : Fin fanOut → ℚ) : (Fin fanOut → ℚ) × (Fin fanOut → ℚ) :=
  match l.mode with
  | Mode.spiking => spikingDynamics l.threshold v
  | Mode.rate => rateDynamics σ v

/-- The LIF potential update of `forward`:
`self.v += -self.leak * self.v + ff_input + fb_input`. -/
def vUpdated (l : ControlledLayer fanIn fanOut ctrlDim)
    (inputs : Fin fanIn → ℚ) (c : Fin ctrlDim → ℚ) : Fin fanOut → ℚ :=
  fun i => l.v i + (-l.leak * l.v i) + matVec l.ffWeight inputs i
    + matVec l.fbWeight c i

/-- The pre- and post-synaptic spike indicators of the plasticity block:
in rate mode `spikify(inputs)` and `spikify(outputs)` (consuming fresh
randomness), in spiking mode `inputs, outputs` verbatim. -/
def spikePair (rng : ℕ → ℚ) (pos : ℕ) (l : ControlledLayer fanIn fanOut ctrlDim)
    (inputs : Fin fanIn → ℚ) (outputs : Fin fanOut → ℚ) :
    (Fin fanIn → ℚ) × (Fin fanOut → ℚ) :=
  match l.mode with
  | Mode.rate =>
      (spikify inputs (fun i => rng (pos + (i : ℕ))),
       spikify outputs (fun j => rng (pos + fanIn + (j : ℕ))))
  | Mode.spiking => (inputs, outputs)

/-- Random-stream positions consumed by the plasticity block of one call
(two `torch.rand_like` draws in rate mode, none in spiking mode). -/
def spikePairPos (pos : ℕ) (l : ControlledLayer fanIn fanOut ctrlDim) : ℕ :=
  match l.mode with
  | Mode.rate => pos + fanIn + fanOut
  | Mode.spiking => pos

/-- The matrix added into the weight-gradient buffer by one plasticity
update, as a function of the state at call entry:
`-(outer(post_spikes, Apre') - outer(pre_spikes, Apost')ᵗ)` where
`Apre' = Apre·decay + pre_spikes` and `Apost' = Apost·decay + post_spikes`
are the just-updated traces. -/
def gradContrib (rng : ℕ → ℚ) (pos : ℕ) (l : ControlledLayer fanIn fanOut ctrlDim)
    (inputs : Fin fanIn → ℚ) (outputs : Fin fanOut → ℚ) :
    Fin fanOut → Fin fanIn → ℚ :=
  fun j i =>
    (l.spikePair rng pos inputs outputs).1 i
        * (l.Apost j * l.stdpDecay + (l.spikePair rng pos inputs outputs).2 j)
      - (l.spikePair rng pos inputs outputs).2 j
        * (l.Apre i * l.stdpDecay + (l.spikePair rng pos inputs outputs).1 i)

/-- `ControlledLayer.forward(inputs, c)`: feed-forward and feedback
currents, LIF update, dynamics, then (when `stdp_decay` is truthy) the
trace update and gradient accumulation.  Returns the outputs, the updated
layer state and the new random-stream position. -/
def forward (σ : ℚ → ℚ) (rng : ℕ → ℚ) (l : ControlledLayer fanIn fanOut ctrlDim)
    (inputs : Fin fanIn → ℚ) (c : Fin ctrlDim → ℚ) (pos : ℕ) :
    (Fin fanOut → ℚ) × ControlledLayer fanIn fanOut ctrlDim × ℕ :=
  let vNew := l.vUpdated inputs c
  let outputs := (l.dynamicsOf σ vNew).1
  let vAfter := (l.dynamicsOf σ vNew).2
  if l.stdpDecay ≠ 0 then
    let grad0 := l.grad.getD (fun _ _ => 0)
    let inSp := (l.spikePair rng pos inputs outputs).1
    let outSp := (l.spikePair rng pos inputs outputs).2
    let apre := fun i => l.Apre i * l.stdpDecay + inSp i
    let apost := fun j => l.Apost j * l.stdpDecay + outSp j
    (outputs,
     { l with
        v := vAfter
        Apre := apre
        Apost := apost
        grad := some (fun j i =>
          grad0 j i - (-(inSp i * apost j) + outSp j * apre i)) },
     l.spikePairPos pos)
  else
    (outputs, { l with v := vAfter }, pos)

/-- `ControlledLayer.reset()`: `self.v = torch.zeros(self.fan_out)`. -/
def reset (l : ControlledLayer fanIn fanOut ctrlDim) :
    ControlledLayer fanIn fanOut ctrlDim :=
  { l with v := fun _ => 0 }

end ControlledLayer

/-- The `self.layers` list of a `ControlledNetwork`: a heterogeneous stack
of `ControlledLayer`s sharing one controller dimension, transforming
dimension `a` into dimension `b`. -/
inductive LayerStack (ctrlDim : ℕ) : ℕ → ℕ → Type where
  | nil {a : ℕ} : LayerStack ctrlDim a a
  | cons {a b c : ℕ} (l : ControlledLayer a b ctrlDim)
      (s : LayerStack ctrlDim b c) : LayerStack ctrlDim a c

namespace LayerStack

variable {ctrlDim : ℕ}

/-- `ControlledNetwork.forward(x, c)`: thread `x` through the layers in
sequence, every layer reading the same controller vector `c`. -/
def forward (σ : ℚ → ℚ) (rng : ℕ → ℚ) {a b : ℕ} :
    LayerStack ctrlDim a b → (Fin a → ℚ) → (Fin ctrlDim → ℚ) → ℕ →
      (Fin b → ℚ) × LayerStack ctrlDim a b × ℕ
  | nil, x, _, pos => (x, nil, pos)
  | cons l s, x, c, pos =>
      let r := l.forward σ rng x c pos
      let r2 := forward σ rng s r.1 c r.2.2
      (r2.1, cons r.2.1 r2.2.1, r2.2.2)

/-- `layer.reset()` applied to every layer of the stack. -/
def reset {a b : ℕ} : LayerStack ctrlDim a b → LayerStack ctrlDim a b
  | nil => nil
  | cons l s => cons l.reset (reset s)

end LayerStack

/-- Per-layer frame relation used to state what `reset` touches: the
second stack is the first with every membrane potential zeroed and all
other per-layer state (weights, traces, gradient buffer, configuration)
identical. -/
inductive ResetRel {ctrlDim : ℕ} :
    ∀ {a b : ℕ}, LayerStack ctrlDim a b → LayerStack ctrlDim a b → Prop where
  | nil {a : ℕ} : ResetRel (LayerStack.nil (a := a)) LayerStack.nil
  | cons {a b c : ℕ} {l l' : ControlledLayer a b ctrlDim}
      {s s' : LayerStack ctrlDim b c} :
      l'.v = (fun _ => 0) → l'.Apre = l.Apre → l'.Apost = l.Apost →
      l'.grad = l.grad → l'.ffWeight = l.ffWeight →
      l'.fbWeight = l.fbWeight → l'.leak = l.leak →
      l'.threshold = l.threshold → l'.mode = l.mode →
      l'.stdpTau = l.stdpTau → ResetRel s s' →
      ResetRel (LayerStack.cons l s) (LayerStack.cons l' s')

/-- State and configuration of a `ControlledNetwork` (fields of `self`):
the controller vector `c`, the layer stack, the controller learning rate
and the convergence precision.  The controller dimension is the last
layer's width, so the stack output dimension equals `ctrlDim`. -/
structure ControlledNetwork (inDim ctrlDim : ℕ) where
  controllerRate : ℚ
  ctrPrecision : ℚ
  c : Fin ctrlDim → ℚ
  layers : LayerStack ctrlDim inDim ctrlDim

namespace ControlledNetwork

variable {inDim ctrlDim : ℕ}

/-- `ControlledNetwork.forward(x, c)` with `c = self.c`, returning the
network output, the updated network and the new random-stream position. -/
def forward (σ : ℚ → ℚ) (rng : ℕ → ℚ) (net : ControlledNetwork inDim ctrlDim)
    (x : Fin inDim → ℚ) (pos : ℕ) :
    (Fin ctrlDim → ℚ) × ControlledNetwork inDim ctrlDim × ℕ :=
  let r := net.layers.forward σ rng x net.c pos
  (r.1, { net with layers := r.2.1 }, r.2.2)

/-- `ControlledNetwork.evolve_controller(current_output, control_target_rate)`:
`error = control_target_rate - current_output`;
`self.c += self.controller_rate * error`. -/
def evolveController (net : ControlledNetwork inDim ctrlDim)
    (currentOutput controlTargetRate : Fin ctrlDim → ℚ) :
    ControlledNetwork inDim ctrlDim :=
  { net with
      c := fun i => net.c i
        + net.controllerRate * (controlTargetRate i - currentOutput i) }

/-- `ControlledNetwork.reset()`: zero `self.c` and reset every layer. -/
def reset (net : ControlledNetwork inDim ctrlDim) :
    ControlledNetwork inDim ctrlDim :=
  { net with c := fun _ => 0, layers := net.layers.reset }

/-- `(output_rate - target_rate).abs().mean()`. -/
def meanAbsDiff {n : ℕ} (out target : Fin n → ℚ) : ℚ :=
  (∑ i, |out i - target i|) / n

/-- One iteration of the `while True` body: one network forward pass
followed by the controller update. -/
def oneIter (σ : ℚ → ℚ) (rng : ℕ → ℚ) (x : Fin inDim → ℚ)
    (controlTargetRate : Fin ctrlDim → ℚ)
    (st : ControlledNetwork inDim ctrlDim × ℕ) :
    ControlledNetwork inDim ctrlDim × ℕ :=
  let r := st.1.forward σ rng x st.2
  (r.2.1.evolveController r.1 controlTargetRate, r.2.2)

/-- The network state (and random-stream position) after `k` full
iterations of the loop body, starting from `st`. -/
def iterFrom (σ : ℚ → ℚ) (rng : ℕ → ℚ) (x : Fin inDim → ℚ)
    (controlTargetRate : Fin ctrlDim → ℚ)
    (st : ControlledNetwork inDim ctrlDim × ℕ) : ℕ →
      ControlledNetwork inDim ctrlDim × ℕ
  | 0 => st
  | k + 1 => oneIter σ rng x controlTargetRate
      (iterFrom σ rng x controlTargetRate st k)

/-- The output produced by iteration `k + 1` of the loop (0-based `k`),
starting from `st`. -/
def outAt (σ : ℚ → ℚ) (rng : ℕ → ℚ) (x : Fin inDim → ℚ)
    (controlTargetRate : Fin ctrlDim → ℚ)
    (st : ControlledNetwork inDim ctrlDim × ℕ) (k : ℕ) : Fin ctrlDim → ℚ :=
  ((iterFrom σ rng x controlTargetRate st k).1.forward σ rng x
    (iterFrom σ rng x controlTargetRate st k).2).1

/-- The `while True` loop of `evolve_to_convergence`, with an explicit
fuel bound (`none` = the loop did not exit within `fuel` iterations).
`nIter` and `firstOpt` mirror `n_iter` and the `first_output` variable
(which is unassigned until `n_iter == 1`). -/
def convergeAux (σ : ℚ → ℚ) (rng : ℕ → ℚ) (x : Fin inDim → ℚ)
    (targetRate controlTargetRate : Fin ctrlDim → ℚ) :
    ℕ → ControlledNetwork inDim ctrlDim → ℕ → ℕ → Option (Fin ctrlDim → ℚ) →
      Option ((Fin ctrlDim → ℚ) × ℕ)
  | 0, _, _, _, _ => none
  | fuel + 1, net, pos, nIter, firstOpt =>
      let r := net.forward σ rng x pos
      let net2 := r.2.1.evolveController r.1 controlTargetRate
      let nIter2 := nIter + 1
      let firstOpt2 := if nIter2 = 1 then some r.1 else firstOpt
      if meanAbsDiff r.1 targetRate ≤ net.ctrPrecision then
        firstOpt2.map (fun f => (f, nIter2))
      else
        convergeAux σ rng x targetRate controlTargetRate fuel net2 r.2.2
          nIter2 firstOpt2

/-- `ControlledNetwork.evolve_to_convergence(x, target_rate,
control_target_rate)`: reset, then loop until the mean absolute difference
between the output and `target_rate` is at most `ctr_precision`, returning
`(first_output, n_iter)`; `fuel` bounds the number of iterations we are
willing to unfold (the Python loop is unbounded). -/
def evolveToConvergence (σ : ℚ → ℚ) (rng : ℕ → ℚ)
    (net : ControlledNetwork inDim ctrlDim) (x : Fin inDim → ℚ)
    (targetRate controlTargetRate : Fin ctrlDim → ℚ) (pos : ℕ) (fuel : ℕ) :
    Option ((Fin ctrlDim → ℚ) × ℕ) :=
  convergeAux σ rng x targetRate controlTargetRate fuel net.reset pos 0 none

/-- The loop's exit test as it stands at iteration `j + 1` (0-based `j`)
of a run started from `st`: the mean absolute difference between that
iteration's output and the target is at most the precision carried by the
then-current state. -/
def hitsTarget (σ : ℚ → ℚ) (rng : ℕ → ℚ) (x : Fin inDim → ℚ)
    (targetRate controlTargetRate : Fin ctrlDim → ℚ)
    (st : ControlledNetwork inDim ctrlDim × ℕ) (j : ℕ) : Prop :=
  meanAbsDiff (outAt σ rng x controlTargetRate st j) targetRate
    ≤ (iterFrom σ rng x controlTargetRate st j).1.ctrPrecision

end ControlledNetwork

/-! ## Concrete instances used by witnesses -/

/-- Stand-in for the library sigmoid in concrete computations. -/
def sigId : ℚ → ℚ := fun q => q

/-- A concrete random stream. -/
def rng0 : ℕ → ℚ := fun _ => 0

/-- A concrete spiking layer built by the constructor: 1 input, 2 units,
controller dimension 1, all feed-forward weights 1, no plasticity. -/
def lw2 : ControlledLayer 1 2 1 :=
  ControlledLayer.init 1 2 1 Mode.spiking (9/10) 0 (fun _ _ => 1)

/-- A concrete post-update potential vector: unit 0 at exactly the
threshold, unit 1 just above it. -/
def vw2 : Fin 2 → ℚ := fun i => if (i : ℕ) = 0 then 1 else 10001 / 10000

/-! ## Shared lemmas -/

/-- `forward` returns the dynamics output of the updated potential, stores
the dynamics-adjusted potential, and (in every branch) leaves the mode,
threshold, leak, weights and `stdpTau` untouched. -/
theorem forward_core (σ : ℚ → ℚ) (rng : ℕ → ℚ)
    {fi fo cd : ℕ} (l : ControlledLayer fi fo cd) (x : Fin fi → ℚ)
    (c : Fin cd → ℚ) (pos : ℕ) :
    (l.forward σ rng x c pos).1 = (l.dynamicsOf σ (l.vUpdated x c)).1 ∧
    (l.forward σ rng x c pos).2.1.v = (l.dynamicsOf σ (l.vUpdated x c)).2 ∧
    (l.forward σ rng x c pos).2.1.mode = l.mode ∧
    (l.forward σ rng x c pos).2.1.threshold = l.threshold ∧
    (l.forward σ rng x c pos).2.1.leak = l.leak ∧
    (l.forward σ rng x c pos).2.1.ffWeight = l.ffWeight ∧
    (l.forward σ rng x c pos).2.1.fbWeight = l.fbWeight ∧
    (l.forward σ rng x c pos).2.1.stdpTau = l.stdpTau := by
  by_cases h : l.stdpDecay ≠ 0 <;>
    simp [ControlledLayer.forward, h]

/-- A concrete rate-mode layer with leak `1/2` and potential `1/3`. -/
def lw8 : ControlledLayer 1 1 1 :=
  { leak := 1/2, threshold := 1, mode := Mode.rate, ffWeight := fun _ _ => 0,
    fbWeight := fun _ _ => 0, stdpTau := 0, v := fun _ => 1/3,
    Apre := fun _ => 0, Apost := fun _ => 0, grad := none }

/-- A concrete rate-mode layer with leak `0` and potential `1/2`. -/
def lw0 : ControlledLayer 1 1 1 :=
  { leak := 0, threshold := 1, mode := Mode.rate, ffWeight := fun _ _ => 0,
    fbWeight := fun _ _ => 0, stdpTau := 0, v := fun _ => 1/2,
    Apre := fun _ => 0, Apost := fun _ => 0, grad := none }

/-- A concrete spiking layer with plasticity (`stdp_tau = 2`), feed-forward
weight `3`, leak `0`, and a nonzero initial `Apre` trace. -/
def lw5 : ControlledLayer 1 1 1 :=
  { leak := 0, threshold := 1, mode := Mode.spiking, ffWeight := fun _ _ => 3,
    fbWeight := fun _ _ => 0, stdpTau := 2, v := fun _ => 0,
    Apre := fun _ => 1, Apost := fun _ => 0, grad := none }

/-- A concrete rate-mode layer constructed with `stdp_tau = 1`. -/
def lwT : ControlledLayer 1 1 1 :=
  ControlledLayer.init 1 1 1 Mode.rate (1/2) 1 (fun _ _ => 2)

/-- A concrete one-layer spiking network with all weights zero, precision
`1/100`. -/
def net4 : ControlledNetwork 1 1 :=
  { controllerRate := 1/10
    ctrPrecision := 1/100
    c := fun _ => 0
    layers := LayerStack.cons
      (ControlledLayer.init 1 1 1 Mode.spiking (9/10) 0 (fun _ _ => 0))
      LayerStack.nil }

/-! ## Claims -/

/-- C1: every `ControlledLayer.forward(inputs, c)` call updates the
membrane potential to `v' = (1 - leak)·v + W_ff·inputs + W_fb·c` — both
projections bias-free sums — and only then applies the dynamics
nonlinearity, whose result is the call's output and post-call potential. -/
theorem forward_potential_update (σ : ℚ → ℚ) (rng : ℕ → ℚ)
    {fi fo cd : ℕ} (l : ControlledLayer fi fo cd) (x : Fin fi → ℚ)
    (c : Fin cd → ℚ) (pos : ℕ) :
    (∀ i, l.vUpdated x c i =
      (1 - l.leak) * l.v i + (∑ j, l.ffWeight i j * x j)
        + (∑ k, l.fbWeight i k * c k)) ∧
    (l.forward σ rng x c pos).1 = (l.dynamicsOf σ (l.vUpdated x c)).1 ∧
    (l.forward σ rng x c pos).2.1.v = (l.dynamicsOf σ (l.vUpdated x c)).2 := by
  refine ⟨fun i => ?_, (forward_core σ rng l x c pos).1,
    (forward_core σ rng l x c pos).2.1⟩
  simp only [ControlledLayer.vUpdated, matVec]
  ring

/-- C2: in spiking mode (threshold fixed at `1.` by the constructor), one
dynamics application outputs `1` exactly where the post-update potential
strictly exceeds `1` (so potential exactly `1` does not spike) and `0`
elsewhere; afterwards every spiked unit's potential is exactly `0` and
every other unit's potential is untouched by the dynamics unit. -/
theorem spiking_threshold_strict (σ : ℚ → ℚ) (rng : ℕ → ℚ)
    {fi fo cd : ℕ} (l : ControlledLayer fi fo cd) (x : Fin fi → ℚ)
    (c : Fin cd → ℚ) (pos : ℕ) (v : Fin fo → ℚ) (i : Fin fo)
    (hmode : l.mode = Mode.spiking) (hth : l.threshold = 1) :
    ((ControlledLayer.spikingDynamics 1 v).1 i = if 1 < v i then 1 else 0) ∧
    (v i = 1 → (ControlledLayer.spikingDynamics 1 v).1 i = 0) ∧
    (1 < v i → (ControlledLayer.spikingDynamics 1 v).2 i = 0) ∧
    (¬ 1 < v i → (ControlledLayer.spikingDynamics 1 v).2 i = v i) ∧
    ((l.forward σ rng x c pos).1
      = (ControlledLayer.spikingDynamics 1 (l.vUpdated x c)).1) ∧
    ((l.forward σ rng x c pos).2.1.v
      = (ControlledLayer.spikingDynamics 1 (l.vUpdated x c)).2) := by
  have hdyn : l.dynamicsOf σ (l.vUpdated x c)
      = ControlledLayer.spikingDynamics 1 (l.vUpdated x c) := by
    rw [ControlledLayer.dynamicsOf, hmode, hth]
  refine ⟨rfl, fun h1 => ?_, fun h1 => ?_, fun h1 => ?_, ?_, ?_⟩
  · simp [ControlledLayer.spikingDynamics, h1]
  · simp [ControlledLayer.spikingDynamics, h1]
  · simp [ControlledLayer.spikingDynamics, h1]
  · rw [← hdyn]
    exact (forward_core σ rng l x c pos).1
  · rw [← hdyn]
    exact (forward_core σ rng l x c pos).2.1

/-- Witness for C2: on the constructed spiking layer `lw2` (threshold `1`),
a potential of exactly `1` does not spike and is kept, while `1.0001`
spikes and is reset to `0`. -/
theorem spiking_threshold_strict_witness :
    lw2.mode = Mode.spiking ∧ lw2.threshold = 1 ∧
    (ControlledLayer.spikingDynamics 1 vw2).1 0 = 0 ∧
    (ControlledLayer.spikingDynamics 1 vw2).1 1 = 1 ∧
    (ControlledLayer.spikingDynamics 1 vw2).2 0 = 1 ∧
    (ControlledLayer.spikingDynamics 1 vw2).2 1 = 0 := by
  have h0 := spiking_threshold_strict sigId rng0 lw2 (fun _ => 0) (fun _ => 0)
    0 vw2 0 rfl rfl
  have h1 := spiking_threshold_strict sigId rng0 lw2 (fun _ => 0) (fun _ => 0)
    0 vw2 1 rfl rfl
  have hv0 : vw2 0 = 1 := by norm_num [vw2]
  have hv1 : 1 < vw2 1 := by norm_num [vw2]
  refine ⟨rfl, rfl, h0.2.1 hv0, ?_, ?_, h1.2.2.1 hv1⟩
  · rw [h1.1, if_pos hv1]
  · have hns : ¬ 1 < vw2 0 := by rw [hv0]; exact lt_irrefl 1
    rw [h0.2.2.2.1 hns, hv0]

/-- C6: `evolve_controller` is the pure integral law
`c ← c + controller_rate · (control_target - current_output)`; two
consecutive updates with errors `e1`, `e2` therefore leave the controller
at exactly `c0 + r·e1 + r·e2`. -/
theorem controller_integral_law {inDim cd : ℕ}
    (net : ControlledNetwork inDim cd) (out1 out2 ct1 ct2 : Fin cd → ℚ)
    (i : Fin cd) :
    ((net.evolveController out1 ct1).c i
      = net.c i + net.controllerRate * (ct1 i - out1 i)) ∧
    (((net.evolveController out1 ct1).evolveController out2 ct2).c i
      = net.c i + net.controllerRate * (ct1 i - out1 i)
          + net.controllerRate * (ct2 i - out2 i)) := by
  exact ⟨rfl, rfl⟩

/-- C8 (amended): with zero input and zero controller vector, one forward
call never increases any unit's potential magnitude when leak ∈ [0,1), and
strictly decreases it wherever the potential is nonzero provided leak is
strictly positive (at leak = 0 the potential is left unchanged, so the
decay is not strict there). -/
theorem zero_input_decay (σ : ℚ → ℚ) (rng : ℕ → ℚ) {fi fo cd : ℕ}
    (l : ControlledLayer fi fo cd) (pos : ℕ) (i : Fin fo)
    (h0 : 0 ≤ l.leak) (h1 : l.leak < 1) :
    |(l.forward σ rng (fun _ => 0) (fun _ => 0) pos).2.1.v i| ≤ |l.v i| ∧
    (0 < l.leak → l.v i ≠ 0 →
      |(l.forward σ rng (fun _ => 0) (fun _ => 0) pos).2.1.v i| < |l.v i|) := by
  have hv : l.vUpdated (fun _ => 0) (fun _ => 0)
      = fun j => (1 - l.leak) * l.v j := by
    funext j
    simp [ControlledLayer.vUpdated, matVec]
    ring
  have hw := (forward_core σ rng l (fun _ => 0) (fun _ => 0) pos).2.1
  rw [hv] at hw
  have hle : |(1 - l.leak) * l.v i| ≤ |l.v i| := by
    rw [abs_mul, abs_of_nonneg (by linarith : (0:ℚ) ≤ 1 - l.leak)]
    exact mul_le_of_le_one_left (abs_nonneg _) (by linarith)
  have hlt : 0 < l.leak → l.v i ≠ 0 →
      |(1 - l.leak) * l.v i| < |l.v i| := by
    intro hp hne
    rw [abs_mul, abs_of_nonneg (by linarith : (0:ℚ) ≤ 1 - l.leak)]
    exact mul_lt_of_lt_one_left (abs_pos.mpr hne) (by linarith)
  cases hm : l.mode with
  | spiking =>
      simp only [ControlledLayer.dynamicsOf, hm,
        ControlledLayer.spikingDynamics] at hw
      rw [hw]
      by_cases hs : l.threshold < (1 - l.leak) * l.v i
      · simp only [hs, if_pos]
        constructor
        · simp
        · intro _ hne
          simpa using abs_pos.mpr hne
      · simp only [hs, if_neg, if_false]
        exact ⟨hle, hlt⟩
  | rate =>
      simp only [ControlledLayer.dynamicsOf, hm,
        ControlledLayer.rateDynamics] at hw
      rw [hw]
      exact ⟨hle, hlt⟩

/-- Witness for C8: a layer with leak `1/2` and potential `1/3` strictly
loses potential magnitude on a zero-input, zero-controller call. -/
theorem zero_input_decay_witness :
    (0:ℚ) ≤ lw8.leak ∧ lw8.leak < 1 ∧ 0 < lw8.leak ∧ lw8.v 0 ≠ 0 ∧
    |(lw8.forward sigId rng0 (fun _ => 0) (fun _ => 0) 0).2.1.v 0|
      < |lw8.v 0| := by
  have h := zero_input_decay sigId rng0 lw8 0 0 (by norm_num [lw8])
    (by norm_num [lw8])
  exact ⟨by norm_num [lw8], by norm_num [lw8], by norm_num [lw8],
    by norm_num [lw8], h.2 (by norm_num [lw8]) (by norm_num [lw8])⟩

/-- Counterexample for C8 as stated: leak `0` lies in `[0,1)`, yet a
forward call with zero input and zero controller vector leaves a nonzero
potential exactly where it was — it does not strictly decay toward zero. -/
theorem zero_leak_no_decay :
    (0:ℚ) ≤ lw0.leak ∧ lw0.leak < 1 ∧ lw0.v 0 = 1/2 ∧
    (lw0.forward sigId rng0 (fun _ => 0) (fun _ => 0) 0).2.1.v 0 = 1/2 ∧
    ¬ |(lw0.forward sigId rng0 (fun _ => 0) (fun _ => 0) 0).2.1.v 0|
        < |lw0.v 0| := by
  have hv : (lw0.forward sigId rng0 (fun _ => 0) (fun _ => 0) 0).2.1.v 0
      = 1/2 := by
    norm_num [ControlledLayer.forward, ControlledLayer.stdpDecay,
      ControlledLayer.dynamicsOf, ControlledLayer.rateDynamics,
      ControlledLayer.vUpdated, matVec, lw0]
  refine ⟨by norm_num [lw0], by norm_num [lw0], by norm_num [lw0], hv, ?_⟩
  rw [hv]
  have hl : lw0.v 0 = 1/2 := by norm_num [lw0]
  rw [hl]
  exact lt_irrefl _

/-- What one `forward` call does when the plasticity block runs
(`stdp_decay` truthy): traces decay and take the current spike
indicators, and the gradient buffer accumulates `gradContrib` on top of
whatever it held (a fresh zero buffer when it was `None`). -/
theorem forward_plastic (σ : ℚ → ℚ) (rng : ℕ → ℚ) {fi fo cd : ℕ}
    (l : ControlledLayer fi fo cd) (x : Fin fi → ℚ) (c : Fin cd → ℚ)
    (pos : ℕ) (h : l.stdpDecay ≠ 0) :
    ((l.forward σ rng x c pos).2.1.Apre = fun i =>
      l.Apre i * l.stdpDecay
        + (l.spikePair rng pos x (l.forward σ rng x c pos).1).1 i) ∧
    ((l.forward σ rng x c pos).2.1.Apost = fun j =>
      l.Apost j * l.stdpDecay
        + (l.spikePair rng pos x (l.forward σ rng x c pos).1).2 j) ∧
    ((l.forward σ rng x c pos).2.1.grad = some (fun j i =>
      l.grad.getD (fun _ _ => 0) j i
        + l.gradContrib rng pos x (l.forward σ rng x c pos).1 j i)) := by
  refine ⟨?_, ?_, ?_⟩ <;>
    simp only [ControlledLayer.forward, if_pos h]
  congr 1
  funext j i
  simp only [ControlledLayer.gradContrib]
  ring

/-- `forward` does not change `stdpDecay` (the `stdpTau` field is copied
through every branch). -/
theorem stdpDecay_forward (σ : ℚ → ℚ) (rng : ℕ → ℚ) {fi fo cd : ℕ}
    (l : ControlledLayer fi fo cd) (x : Fin fi → ℚ) (c : Fin cd → ℚ)
    (pos : ℕ) :
    (l.forward σ rng x c pos).2.1.stdpDecay = l.stdpDecay := by
  rw [ControlledLayer.stdpDecay, ControlledLayer.stdpDecay,
    (forward_core σ rng l x c pos).2.2.2.2.2.2.2]

/-- C5: with plasticity enabled, a forward call updates the traces to
`Apre·decay + pre_spikes` and `Apost·decay + post_spikes`
(`decay = 1 - 1/tau`), accumulates `gradContrib` (computed from the
just-updated traces) into the gradient buffer without ever clearing it,
and two consecutive calls therefore leave the buffer holding the sum of
the two calls' individual contributions, each taken at its own call-time
trace values. -/
theorem plasticity_accumulates (σ : ℚ → ℚ) (rng : ℕ → ℚ) {fi fo cd : ℕ}
    (l : ControlledLayer fi fo cd) (x1 x2 : Fin fi → ℚ) (c1 c2 : Fin cd → ℚ)
    (pos : ℕ) (h : l.stdpDecay ≠ 0) :
    ((l.forward σ rng x1 c1 pos).2.1.Apre = fun i =>
      l.Apre i * l.stdpDecay
        + (l.spikePair rng pos x1 (l.forward σ rng x1 c1 pos).1).1 i) ∧
    ((l.forward σ rng x1 c1 pos).2.1.Apost = fun j =>
      l.Apost j * l.stdpDecay
        + (l.spikePair rng pos x1 (l.forward σ rng x1 c1 pos).1).2 j) ∧
    ((l.forward σ rng x1 c1 pos).2.1.grad = some (fun j i =>
      l.grad.getD (fun _ _ => 0) j i
        + l.gradContrib rng pos x1 (l.forward σ rng x1 c1 pos).1 j i)) ∧
    (((l.forward σ rng x1 c1 pos).2.1.forward σ rng x2 c2
        (l.forward σ rng x1 c1 pos).2.2).2.1.grad = some (fun j i =>
      l.grad.getD (fun _ _ => 0) j i
        + l.gradContrib rng pos x1 (l.forward σ rng x1 c1 pos).1 j i
        + (l.forward σ rng x1 c1 pos).2.1.gradContrib rng
            (l.forward σ rng x1 c1 pos).2.2 x2
            ((l.forward σ rng x1 c1 pos).2.1.forward σ rng x2 c2
              (l.forward σ rng x1 c1 pos).2.2).1 j i)) := by
  have h1 := forward_plastic σ rng l x1 c1 pos h
  have h2' : (l.forward σ rng x1 c1 pos).2.1.stdpDecay ≠ 0 := by
    rw [stdpDecay_forward σ rng l x1 c1 pos]
    exact h
  have h2 := forward_plastic σ rng (l.forward σ rng x1 c1 pos).2.1 x2 c2
    (l.forward σ rng x1 c1 pos).2.2 h2'
  refine ⟨h1.1, h1.2.1, h1.2.2, ?_⟩
  rw [h2.2.2, h1.2.2]
  congr 1

/-- Witness for C5: the concrete plastic layer `lw5` has truthy
`stdp_decay`, and two consecutive calls on it satisfy the accumulated
two-call gradient equation. -/
theorem plasticity_accumulates_witness :
    lw5.stdpDecay ≠ 0 ∧
    (((lw5.forward sigId rng0 (fun _ => 1) (fun _ => 0) 0).2.1.forward sigId
        rng0 (fun _ => 1) (fun _ => 0)
        (lw5.forward sigId rng0 (fun _ => 1) (fun _ => 0) 0).2.2).2.1.grad
      = some (fun j i =>
        lw5.grad.getD (fun _ _ => 0) j i
          + lw5.gradContrib rng0 0 (fun _ => 1)
              (lw5.forward sigId rng0 (fun _ => 1) (fun _ => 0) 0).1 j i
          + (lw5.forward sigId rng0 (fun _ => 1) (fun _ => 0) 0).2.1.gradContrib
              rng0 (lw5.forward sigId rng0 (fun _ => 1) (fun _ => 0) 0).2.2
              (fun _ => 1)
              ((lw5.forward sigId rng0 (fun _ => 1) (fun _ => 0) 0).2.1.forward
                sigId rng0 (fun _ => 1) (fun _ => 0)
                (lw5.forward sigId rng0 (fun _ => 1) (fun _ => 0) 0).2.2).1 j i)) := by
  have hd : lw5.stdpDecay ≠ 0 := by
    norm_num [ControlledLayer.stdpDecay, lw5]
  exact ⟨hd, (plasticity_accumulates sigId rng0 lw5 (fun _ => 1) (fun _ => 1)
    (fun _ => 0) (fun _ => 0) 0 hd).2.2.2⟩

/-- `spikify` only ever produces `0` or `1`. -/
theorem spikify_binary {n : ℕ} (rate r : Fin n → ℚ) (i : Fin n) :
    spikify rate r i = 0 ∨ spikify rate r i = 1 := by
  simp only [spikify]
  split
  · exact Or.inr rfl
  · exact Or.inl rfl

/-- In spiking mode every output entry of `forward` is `0` or `1`. -/
theorem spiking_output_binary (σ : ℚ → ℚ) (rng : ℕ → ℚ) {fi fo cd : ℕ}
    (l : ControlledLayer fi fo cd) (x : Fin fi → ℚ) (c : Fin cd → ℚ)
    (pos : ℕ) (hm : l.mode = Mode.spiking) (j : Fin fo) :
    (l.forward σ rng x c pos).1 j = 0 ∨ (l.forward σ rng x c pos).1 j = 1 := by
  have ho := congrFun (forward_core σ rng l x c pos).1 j
  rw [ho]
  simp only [ControlledLayer.dynamicsOf, hm,
    ControlledLayer.spikingDynamics]
  split
  · exact Or.inr rfl
  · exact Or.inl rfl

/-- C7 (amended): with plasticity enabled, the post-synaptic spike
indicator entering the trace and gradient updates is binary in both modes
(spiking outputs are 0/1, rate mode Bernoulli-samples the output rates),
and in rate mode the pre-synaptic indicator is likewise a binary Bernoulli
sample of the inputs; in spiking mode, however, the pre-synaptic indicator
is the raw input vector taken verbatim, binary only when the inputs
happen to be. -/
theorem spike_indicators (σ : ℚ → ℚ) (rng : ℕ → ℚ) {fi fo cd : ℕ}
    (l : ControlledLayer fi fo cd) (x : Fin fi → ℚ) (c : Fin cd → ℚ)
    (pos : ℕ) (h : l.stdpDecay ≠ 0) :
    (∀ j, (l.spikePair rng pos x (l.forward σ rng x c pos).1).2 j = 0
       ∨ (l.spikePair rng pos x (l.forward σ rng x c pos).1).2 j = 1) ∧
    (l.mode = Mode.rate →
      ∀ i, (l.spikePair rng pos x (l.forward σ rng x c pos).1).1 i = 0
        ∨ (l.spikePair rng pos x (l.forward σ rng x c pos).1).1 i = 1) ∧
    (l.mode = Mode.spiking →
      (l.spikePair rng pos x (l.forward σ rng x c pos).1).1 = x) ∧
    ((l.forward σ rng x c pos).2.1.Apre = fun i =>
      l.Apre i * l.stdpDecay
        + (l.spikePair rng pos x (l.forward σ rng x c pos).1).1 i) ∧
    ((l.forward σ rng x c pos).2.1.Apost = fun j =>
      l.Apost j * l.stdpDecay
        + (l.spikePair rng pos x (l.forward σ rng x c pos).1).2 j) := by
  have hp := forward_plastic σ rng l x c pos h
  refine ⟨?_, ?_, ?_, hp.1, hp.2.1⟩
  · intro j
    cases hm : l.mode with
    | spiking =>
        simp only [ControlledLayer.spikePair, hm]
        exact spiking_output_binary σ rng l x c pos hm j
    | rate =>
        simp only [ControlledLayer.spikePair, hm]
        exact spikify_binary _ _ j
  · intro hm i
    simp only [ControlledLayer.spikePair, hm]
    exact spikify_binary _ _ i
  · intro hm
    simp only [ControlledLayer.spikePair, hm]

/-- Witness for C7 (amended): on `lw5` (spiking, plastic), the
post-synaptic indicator of a call is binary and the pre-synaptic indicator
is the input vector itself. -/
theorem spike_indicators_witness :
    lw5.stdpDecay ≠ 0 ∧
    ((lw5.spikePair rng0 0 (fun _ => 1)
        (lw5.forward sigId rng0 (fun _ => 1) (fun _ => 0) 0).1).2 0 = 0
      ∨ (lw5.spikePair rng0 0 (fun _ => 1)
        (lw5.forward sigId rng0 (fun _ => 1) (fun _ => 0) 0).1).2 0 = 1) ∧
    (lw5.spikePair rng0 0 (fun _ => 1)
        (lw5.forward sigId rng0 (fun _ => 1) (fun _ => 0) 0).1).1
      = (fun _ => 1) := by
  have hd : lw5.stdpDecay ≠ 0 := by
    norm_num [ControlledLayer.stdpDecay, lw5]
  have hs := spike_indicators sigId rng0 lw5 (fun _ => 1) (fun _ => 0) 0 hd
  exact ⟨hd, hs.1 0, hs.2.2.1 rfl⟩

/-- Counterexample for C7 as stated: `lw5` is a spiking-mode layer with
plasticity enabled; a forward call with input `1/2` uses `1/2` itself as
the pre-synaptic spike indicator (it enters the `Apre` trace), and `1/2`
is neither `0` nor `1`. -/
theorem spiking_pre_indicator_not_binary :
    lw5.stdpDecay ≠ 0 ∧ lw5.mode = Mode.spiking ∧
    (lw5.spikePair rng0 0 (fun _ => 1/2)
      (lw5.forward sigId rng0 (fun _ => 1/2) (fun _ => 0) 0).1).1 0 = 1/2 ∧
    ¬ ((1:ℚ)/2 = 0 ∨ (1:ℚ)/2 = 1) ∧
    ((lw5.forward sigId rng0 (fun _ => 1/2) (fun _ => 0) 0).2.1.Apre 0
      = lw5.Apre 0 * lw5.stdpDecay + 1/2) := by
  have hd : lw5.stdpDecay ≠ 0 := by
    norm_num [ControlledLayer.stdpDecay, lw5]
  have hsp : (lw5.spikePair rng0 0 (fun _ => 1/2)
      (lw5.forward sigId rng0 (fun _ => 1/2) (fun _ => 0) 0).1).1 0
        = 1/2 := by
    simp only [ControlledLayer.spikePair, lw5]
  have hap := congrFun
    (forward_plastic sigId rng0 lw5 (fun _ => 1/2) (fun _ => 0) 0 hd).1 0
  rw [hsp] at hap
  exact ⟨hd, rfl, hsp, by norm_num, hap⟩

/-- C10: constructing a `ControlledLayer` with `stdp_tau = 1` gives
`stdp_decay = 1 - 1/1 = 0`, which the code treats as falsy: the
plasticity block never runs, traces and the gradient buffer stay
untouched, no randomness is consumed, and the call's output and potential
are exactly those of the same layer built with `stdp_tau = False`
(encoded `0`). -/
theorem stdp_tau_one_disables (σ : ℚ → ℚ) (rng : ℕ → ℚ) {fi fo cd : ℕ}
    (l : ControlledLayer fi fo cd) (x : Fin fi → ℚ) (c : Fin cd → ℚ)
    (pos : ℕ) (h : l.stdpTau = 1) :
    l.stdpDecay = 0 ∧
    (l.forward σ rng x c pos).2.1.Apre = l.Apre ∧
    (l.forward σ rng x c pos).2.1.Apost = l.Apost ∧
    (l.forward σ rng x c pos).2.1.grad = l.grad ∧
    (l.forward σ rng x c pos).2.2 = pos ∧
    (l.forward σ rng x c pos).1
      = ({ l with stdpTau := 0 }.forward σ rng x c pos).1 ∧
    (l.forward σ rng x c pos).2.1.v
      = ({ l with stdpTau := 0 }.forward σ rng x c pos).2.1.v := by
  have hd : l.stdpDecay = 0 := by
    norm_num [ControlledLayer.stdpDecay, h]
  have hd0 : ({ l with stdpTau := 0 } :
      ControlledLayer fi fo cd).stdpDecay = 0 := by
    norm_num [ControlledLayer.stdpDecay]
  refine ⟨hd, ?_, ?_, ?_, ?_, ?_, ?_⟩ <;>
    simp [ControlledLayer.forward, hd, hd0, ControlledLayer.vUpdated,
      ControlledLayer.dynamicsOf]
  all_goals rfl

/-- Witness for C10: the layer `lwT`, constructed with `stdp_tau = 1`,
has `stdp_decay = 0` and a forward call leaves trace and gradient state
untouched. -/
theorem stdp_tau_one_disables_witness :
    lwT.stdpTau = 1 ∧ lwT.stdpDecay = 0 ∧
    (lwT.forward sigId rng0 (fun _ => 1) (fun _ => 0) 0).2.1.grad
      = lwT.grad ∧
    (lwT.forward sigId rng0 (fun _ => 1) (fun _ => 0) 0).2.1.Apre
      = lwT.Apre := by
  have h := stdp_tau_one_disables sigId rng0 lwT (fun _ => 1) (fun _ => 0)
    0 rfl
  exact ⟨rfl, h.1, h.2.2.2.1, h.2.1⟩

/-- Resetting a stack relates it to itself through `ResetRel`. -/
theorem resetRel_reset {cd a b : ℕ} (s : LayerStack cd a b) :
    ResetRel s s.reset := by
  induction s with
  | nil => exact ResetRel.nil
  | cons l s ih =>
      exact ResetRel.cons rfl rfl rfl rfl rfl rfl rfl rfl rfl rfl ih

/-- Iterating `k + 1` times from `st` is iterating `k` times from
`oneIter st`. -/
theorem iterFrom_shift (σ : ℚ → ℚ) (rng : ℕ → ℚ) {inDim cd : ℕ}
    (x : Fin inDim → ℚ) (ct : Fin cd → ℚ)
    (st : ControlledNetwork inDim cd × ℕ) (k : ℕ) :
    ControlledNetwork.iterFrom σ rng x ct st (k + 1)
      = ControlledNetwork.iterFrom σ rng x ct
          (ControlledNetwork.oneIter σ rng x ct st) k := by
  induction k with
  | zero => rfl
  | succ k ih =>
      show ControlledNetwork.oneIter σ rng x ct
        (ControlledNetwork.iterFrom σ rng x ct st (k + 1)) = _
      rw [ih]
      rfl

/-- The loop test at iteration `k + 2` of a run from `st` is the test at
iteration `k + 1` of the run from `oneIter st`. -/
theorem hitsTarget_shift (σ : ℚ → ℚ) (rng : ℕ → ℚ) {inDim cd : ℕ}
    (x : Fin inDim → ℚ) (tr ct : Fin cd → ℚ)
    (st : ControlledNetwork inDim cd × ℕ) (k : ℕ) :
    ControlledNetwork.hitsTarget σ rng x tr ct st (k + 1)
      ↔ ControlledNetwork.hitsTarget σ rng x tr ct
          (ControlledNetwork.oneIter σ rng x ct st) k := by
  unfold ControlledNetwork.hitsTarget ControlledNetwork.outAt
  rw [iterFrom_shift]

/-- One unfolding of the fuelled `while True` body. -/
theorem convergeAux_succ (σ : ℚ → ℚ) (rng : ℕ → ℚ) {inDim cd : ℕ}
    (x : Fin inDim → ℚ) (tr ct : Fin cd → ℚ) (fuel : ℕ)
    (net : ControlledNetwork inDim cd) (pos nIter : ℕ)
    (fo : Option (Fin cd → ℚ)) :
    ControlledNetwork.convergeAux σ rng x tr ct (fuel + 1) net pos nIter fo
      = (if ControlledNetwork.meanAbsDiff (net.forward σ rng x pos).1 tr
            ≤ net.ctrPrecision
         then (if nIter + 1 = 1 then some (net.forward σ rng x pos).1
                else fo).map (fun f => (f, nIter + 1))
         else ControlledNetwork.convergeAux σ rng x tr ct fuel
                (ControlledNetwork.oneIter σ rng x ct (net, pos)).1
                (ControlledNetwork.oneIter σ rng x ct (net, pos)).2
                (nIter + 1)
                (if nIter + 1 = 1 then some (net.forward σ rng x pos).1
                  else fo)) := rfl

/-- Once `first_output` has been recorded (`n_iter ≥ 1`), any successful
continuation of the loop returns exactly that recorded value. -/
theorem convergeAux_first (σ : ℚ → ℚ) (rng : ℕ → ℚ) {inDim cd : ℕ}
    (x : Fin inDim → ℚ) (tr ct : Fin cd → ℚ) :
    ∀ (fuel k : ℕ) (net : ControlledNetwork inDim cd) (pos : ℕ)
      (f r : Fin cd → ℚ) (m : ℕ), 1 ≤ k →
      ControlledNetwork.convergeAux σ rng x tr ct fuel net pos k (some f)
        = some (r, m) →
      r = f := by
  intro fuel
  induction fuel with
  | zero =>
      intro k net pos f r m hk h
      exact Option.noConfusion h
  | succ fuel ih =>
      intro k net pos f r m hk h
      rw [convergeAux_succ, if_neg (by omega : ¬ k + 1 = 1)] at h
      by_cases ht : ControlledNetwork.meanAbsDiff (net.forward σ rng x pos).1
          tr ≤ net.ctrPrecision
      · rw [if_pos ht] at h
        simp only [Option.map_some', Option.some.injEq, Prod.mk.injEq] at h
        exact h.1.symm
      · rw [if_neg ht] at h
        exact ih (k + 1) _ _ f r m (by omega) h

/-- A successful loop run exits at the first iteration whose test passes:
the returned count is `nIter` plus that iteration's 1-based index. -/
theorem convergeAux_exit (σ : ℚ → ℚ) (rng : ℕ → ℚ) {inDim cd : ℕ}
    (x : Fin inDim → ℚ) (tr ct : Fin cd → ℚ) :
    ∀ (fuel k : ℕ) (net : ControlledNetwork inDim cd) (pos : ℕ)
      (fo : Option (Fin cd → ℚ)) (r : Fin cd → ℚ) (m : ℕ),
      ControlledNetwork.convergeAux σ rng x tr ct fuel net pos k fo
        = some (r, m) →
      ∃ j, m = k + j + 1 ∧
        ControlledNetwork.hitsTarget σ rng x tr ct (net, pos) j ∧
        ∀ i < j, ¬ ControlledNetwork.hitsTarget σ rng x tr ct (net, pos) i := by
  intro fuel
  induction fuel with
  | zero =>
      intro k net pos fo r m h
      exact Option.noConfusion h
  | succ fuel ih =>
      intro k net pos fo r m h
      rw [convergeAux_succ] at h
      by_cases ht : ControlledNetwork.meanAbsDiff (net.forward σ rng x pos).1
          tr ≤ net.ctrPrecision
      · rw [if_pos ht] at h
        have hm : m = k + 1 := by
          rcases hfo : (if k + 1 = 1 then some (net.forward σ rng x pos).1
              else fo) with _ | f
          · rw [hfo] at h
            simp at h
          · rw [hfo] at h
            simp only [Option.map_some', Option.some.injEq, Prod.mk.injEq] at h
            exact h.2.symm
        exact ⟨0, by omega, ht, fun i hi => absurd hi (by omega)⟩
      · rw [if_neg ht] at h
        rcases ih (k + 1) _ _ _ r m h with ⟨j, hj, hh, hmin⟩
        refine ⟨j + 1, by omega, (hitsTarget_shift σ rng x tr ct _ j).mpr hh,
          ?_⟩
        intro i hi
        cases i with
        | zero => exact ht
        | succ i =>
            intro hc
            exact hmin i (by omega)
              ((hitsTarget_shift σ rng x tr ct _ i).mp hc)

/-- C3: whenever `evolve_to_convergence` returns, the first component of
the returned pair is exactly the output of the very first step issued
after the initial reset, and the returned count is the number of loop
iterations executed: it is at least one, the exit test passes at the last
iteration counted, and fails at every earlier iteration. -/
theorem first_output_and_count (σ : ℚ → ℚ) (rng : ℕ → ℚ) {inDim cd : ℕ}
    (net : ControlledNetwork inDim cd) (x : Fin inDim → ℚ)
    (tr ct : Fin cd → ℚ) (pos fuel : ℕ) (r : Fin cd → ℚ) (n : ℕ)
    (h : ControlledNetwork.evolveToConvergence σ rng net x tr ct pos fuel
      = some (r, n)) :
    r = (net.reset.forward σ rng x pos).1 ∧ 1 ≤ n ∧
    ControlledNetwork.hitsTarget σ rng x tr ct (net.reset, pos) (n - 1) ∧
    ∀ m < n - 1,
      ¬ ControlledNetwork.hitsTarget σ rng x tr ct (net.reset, pos) m := by
  rcases convergeAux_exit σ rng x tr ct fuel 0 net.reset pos none r n h
    with ⟨j, hj, hh, hmin⟩
  have hn1 : n - 1 = j := by omega
  refine ⟨?_, by omega, by rw [hn1]; exact hh, by rw [hn1]; exact hmin⟩
  cases fuel with
  | zero =>
      exact Option.noConfusion h
  | succ fuel =>
      unfold ControlledNetwork.evolveToConvergence at h
      rw [convergeAux_succ, if_pos (rfl : (0:ℕ) + 1 = 1)] at h
      by_cases ht : ControlledNetwork.meanAbsDiff
          ((net.reset).forward σ rng x pos).1 tr ≤ (net.reset).ctrPrecision
      · rw [if_pos ht] at h
        simp only [Option.map_some', Option.some.injEq, Prod.mk.injEq] at h
        exact h.1.symm
      · rw [if_neg ht] at h
        exact convergeAux_first σ rng x tr ct fuel 1 _ _ _ r n (le_refl 1) h

/-- If the first passing test lies at 0-based iteration `j`, a loop
started with `n_iter = k ≥ 1` and fuel beyond `j` exits with the recorded
first output and count `k + j + 1`. -/
theorem convergeAux_run (σ : ℚ → ℚ) (rng : ℕ → ℚ) {inDim cd : ℕ}
    (x : Fin inDim → ℚ) (tr ct : Fin cd → ℚ) :
    ∀ (j fuel k : ℕ) (net : ControlledNetwork inDim cd) (pos : ℕ)
      (f : Fin cd → ℚ), j < fuel → 1 ≤ k →
      ControlledNetwork.hitsTarget σ rng x tr ct (net, pos) j →
      (∀ i < j, ¬ ControlledNetwork.hitsTarget σ rng x tr ct (net, pos) i) →
      ControlledNetwork.convergeAux σ rng x tr ct fuel net pos k (some f)
        = some (f, k + j + 1) := by
  intro j
  induction j with
  | zero =>
      intro fuel k net pos f hf hk hh _
      obtain ⟨fuel, rfl⟩ : ∃ fl, fuel = fl + 1 := ⟨fuel - 1, by omega⟩
      have hh2 : ControlledNetwork.meanAbsDiff (net.forward σ rng x pos).1 tr
          ≤ net.ctrPrecision := hh
      rw [convergeAux_succ, if_neg (by omega : ¬ k + 1 = 1), if_pos hh2]
      rfl
  | succ j ihj =>
      intro fuel k net pos f hf hk hh hmin
      obtain ⟨fuel, rfl⟩ : ∃ fl, fuel = fl + 1 := ⟨fuel - 1, by omega⟩
      have h0 : ¬ ControlledNetwork.meanAbsDiff (net.forward σ rng x pos).1 tr
          ≤ net.ctrPrecision := hmin 0 (Nat.succ_pos j)
      rw [convergeAux_succ, if_neg (by omega : ¬ k + 1 = 1), if_neg h0]
      have harr : k + (j + 1) + 1 = k + 1 + j + 1 := by omega
      rw [harr]
      exact ihj fuel (k + 1)
        (ControlledNetwork.oneIter σ rng x ct (net, pos)).1
        (ControlledNetwork.oneIter σ rng x ct (net, pos)).2 f (by omega)
        (by omega)
        ((hitsTarget_shift σ rng x tr ct (net, pos) j).mp hh)
        (fun i hi hc => hmin (i + 1) (by omega)
          ((hitsTarget_shift σ rng x tr ct (net, pos) i).mpr hc))

/-- If no iteration's test ever passes along the trajectory, the loop
consumes any amount of fuel and never returns. -/
theorem convergeAux_never (σ : ℚ → ℚ) (rng : ℕ → ℚ) {inDim cd : ℕ}
    (x : Fin inDim → ℚ) (tr ct : Fin cd → ℚ) :
    ∀ (fuel : ℕ) (net : ControlledNetwork inDim cd) (pos k : ℕ)
      (fo : Option (Fin cd → ℚ)),
      (∀ j, ¬ ControlledNetwork.hitsTarget σ rng x tr ct (net, pos) j) →
      ControlledNetwork.convergeAux σ rng x tr ct fuel net pos k fo
        = none := by
  intro fuel
  induction fuel with
  | zero => intro net pos k fo _; rfl
  | succ fuel ih =>
      intro net pos k fo hne
      have h0 : ¬ ControlledNetwork.meanAbsDiff (net.forward σ rng x pos).1 tr
          ≤ net.ctrPrecision := hne 0
      rw [convergeAux_succ, if_neg h0]
      exact ih _ _ _ _ (fun j hc => hne (j + 1)
        ((hitsTarget_shift σ rng x tr ct (net, pos) j).mpr hc))

/-- C4: the loop exits exactly when the mean absolute difference between
the current output and the target is at or below the configured precision
(the test is sited after each iteration's controller update): if the
first passing test is at iteration `j`, any fuel beyond `j` returns the
first output together with count `j + 1`; and there is no iteration cap —
if the test never passes along the trajectory, no amount of fuel makes
the loop return (the Python `while True` never terminates). -/
theorem loop_exit_and_no_cap (σ : ℚ → ℚ) (rng : ℕ → ℚ) {inDim cd : ℕ}
    (net : ControlledNetwork inDim cd) (x : Fin inDim → ℚ)
    (tr ct : Fin cd → ℚ) (pos : ℕ) :
    (∀ j, ControlledNetwork.hitsTarget σ rng x tr ct (net.reset, pos) j →
      (∀ i < j,
        ¬ ControlledNetwork.hitsTarget σ rng x tr ct (net.reset, pos) i) →
      ∀ fuel, j < fuel →
        ControlledNetwork.evolveToConvergence σ rng net x tr ct pos fuel
          = some ((net.reset.forward σ rng x pos).1, j + 1)) ∧
    ((∀ j, ¬ ControlledNetwork.hitsTarget σ rng x tr ct (net.reset, pos) j) →
      ∀ fuel,
        ControlledNetwork.evolveToConvergence σ rng net x tr ct pos fuel
          = none) := by
  constructor
  · intro j hh hmin fuel hf
    obtain ⟨fuel, rfl⟩ : ∃ fl, fuel = fl + 1 := ⟨fuel - 1, by omega⟩
    unfold ControlledNetwork.evolveToConvergence
    rw [convergeAux_succ, if_pos (rfl : (0:ℕ) + 1 = 1)]
    cases j with
    | zero =>
        have hh2 : ControlledNetwork.meanAbsDiff
            (net.reset.forward σ rng x pos).1 tr
              ≤ net.reset.ctrPrecision := hh
        rw [if_pos hh2]
        rfl
    | succ j =>
        have h0 : ¬ ControlledNetwork.meanAbsDiff
            (net.reset.forward σ rng x pos).1 tr
              ≤ net.reset.ctrPrecision := hmin 0 (Nat.succ_pos j)
        rw [if_neg h0]
        have harr : j + 1 + 1 = 1 + j + 1 := by omega
        rw [harr]
        exact convergeAux_run σ rng x tr ct j fuel 1
          (ControlledNetwork.oneIter σ rng x ct (net.reset, pos)).1
          (ControlledNetwork.oneIter σ rng x ct (net.reset, pos)).2
          (net.reset.forward σ rng x pos).1 (by omega) (le_refl 1)
          ((hitsTarget_shift σ rng x tr ct (net.reset, pos) j).mp hh)
          (fun i hi hc => hmin (i + 1) (by omega)
            ((hitsTarget_shift σ rng x tr ct (net.reset, pos) i).mpr hc))
  · intro hne fuel
    exact convergeAux_never σ rng x tr ct fuel net.reset pos 0 none hne

/-- Along any run of the loop on `net4`, the state keeps a single
spiking-mode layer and precision `1/100`. -/
theorem net4_iter_shape (x : Fin 1 → ℚ) (ct : Fin 1 → ℚ) (j : ℕ) :
    ∃ l : ControlledLayer 1 1 1,
      (ControlledNetwork.iterFrom sigId rng0 x ct (net4.reset, 0) j).1.layers
        = LayerStack.cons l LayerStack.nil ∧
      l.mode = Mode.spiking ∧
      (ControlledNetwork.iterFrom sigId rng0 x ct
        (net4.reset, 0) j).1.ctrPrecision = 1/100 := by
  induction j with
  | zero =>
      exact ⟨(ControlledLayer.init 1 1 1 Mode.spiking (9/10) 0
        (fun _ _ => 0)).reset, rfl, rfl, rfl⟩
  | succ j ih =>
      rcases ih with ⟨l, hl, hm, hp⟩
      set st := ControlledNetwork.iterFrom sigId rng0 x ct (net4.reset, 0) j
        with hst
      have h1 : ControlledNetwork.iterFrom sigId rng0 x ct (net4.reset, 0)
          (j + 1) = ControlledNetwork.oneIter sigId rng0 x ct st := rfl
      rw [h1]
      have h2 : (ControlledNetwork.oneIter sigId rng0 x ct st).1.layers
          = (st.1.layers.forward sigId rng0 x st.1.c st.2).2.1 := rfl
      rw [h2, hl]
      refine ⟨(l.forward sigId rng0 x st.1.c st.2).2.1, rfl, ?_, ?_⟩
      · rw [(forward_core sigId rng0 l x st.1.c st.2).2.2.1]
        exact hm
      · show st.1.ctrPrecision = 1/100
        exact hp

/-- On `net4` with target rate `5`, no iteration's exit test can ever
pass: the spiking output is binary, so the mean absolute difference stays
at least `4`, far above the precision `1/100`. -/
theorem net4_never (x ct : Fin 1 → ℚ) (j : ℕ) :
    ¬ ControlledNetwork.hitsTarget sigId rng0 x (fun _ => 5) ct
        (net4.reset, 0) j := by
  rcases net4_iter_shape x ct j with ⟨l, hl, hm, hp⟩
  intro hcon
  unfold ControlledNetwork.hitsTarget at hcon
  rw [hp] at hcon
  set st := ControlledNetwork.iterFrom sigId rng0 x ct (net4.reset, 0) j
    with hst
  have hout : ControlledNetwork.outAt sigId rng0 x ct (net4.reset, 0) j
      = (l.forward sigId rng0 x st.1.c st.2).1 := by
    show (st.1.layers.forward sigId rng0 x st.1.c st.2).1 = _
    rw [hl]
    rfl
  rw [hout] at hcon
  simp only [ControlledNetwork.meanAbsDiff, Fin.sum_univ_one, Nat.cast_one,
    div_one] at hcon
  have hb := abs_le.mp hcon
  rcases spiking_output_binary sigId rng0 l x st.1.c st.2 hm 0 with h0 | h0 <;>
    rw [h0] at hb <;> linarith [hb.1]

/-- Witness for C4: on `net4` with the unreachable target `5`, the loop
returns nothing even with fuel for 100 iterations. -/
theorem loop_exit_and_no_cap_witness :
    ControlledNetwork.evolveToConvergence sigId rng0 net4 (fun _ => 0)
      (fun _ => 5) (fun _ => 0) 0 100 = none :=
  (loop_exit_and_no_cap sigId rng0 net4 (fun _ => 0) (fun _ => 5)
    (fun _ => 0) 0).2 (fun j => net4_never (fun _ => 0) (fun _ => 0) j) 100

/-- Witness for C3: on `net4` with target rate `0`, the loop exits after
exactly one iteration, returning the first step's output, and the
conclusions of the first-output theorem hold at that run. -/
theorem first_output_and_count_witness :
    ControlledNetwork.evolveToConvergence sigId rng0 net4 (fun _ => 0)
      (fun _ => 0) (fun _ => 0) 0 1
      = some ((net4.reset.forward sigId rng0 (fun _ => 0) 0).1, 1) ∧
    1 ≤ 1 ∧
    ControlledNetwork.hitsTarget sigId rng0 (fun _ => 0) (fun _ => 0)
      (fun _ => 0) (net4.reset, 0) 0 := by
  have hcond : ControlledNetwork.meanAbsDiff
      ((net4.reset).forward sigId rng0 (fun _ => 0) 0).1 (fun _ => 0)
        ≤ (net4.reset).ctrPrecision := by
    norm_num [ControlledNetwork.forward, LayerStack.forward,
      ControlledLayer.forward, ControlledLayer.stdpDecay,
      ControlledLayer.dynamicsOf, ControlledLayer.spikingDynamics,
      ControlledLayer.vUpdated, matVec, ControlledLayer.init,
      ControlledLayer.reset, LayerStack.reset, ControlledNetwork.reset,
      ControlledNetwork.meanAbsDiff, net4, Fin.sum_univ_one]
  have heq : ControlledNetwork.evolveToConvergence sigId rng0 net4
      (fun _ => 0) (fun _ => 0) (fun _ => 0) 0 1
      = some ((net4.reset.forward sigId rng0 (fun _ => 0) 0).1, 1) := by
    show ControlledNetwork.convergeAux sigId rng0 (fun _ => 0) (fun _ => 0)
      (fun _ => 0) (0 + 1) net4.reset 0 0 none = _
    rw [convergeAux_succ, if_pos (rfl : (0:ℕ) + 1 = 1), if_pos hcond]
    rfl
  have hc := first_output_and_count sigId rng0 net4 (fun _ => 0)
    (fun _ => 0) (fun _ => 0) 0 1 _ 1 heq
  exact ⟨heq, hc.2.1, hc.2.2.1⟩

/-- C9: `ControlledNetwork.reset()` zeroes the shared controller vector
and every layer's membrane potential, and changes nothing else — the
controller rate, the precision, and every layer's traces, gradient
buffer and weights are exactly preserved. -/
theorem reset_frame {inDim cd : ℕ} (net : ControlledNetwork inDim cd) :
    net.reset.c = (fun _ => 0) ∧
    net.reset.controllerRate = net.controllerRate ∧
    net.reset.ctrPrecision = net.ctrPrecision ∧
    ResetRel net.layers net.reset.layers := by
  exact ⟨rfl, rfl, rfl, resetRel_reset net.layers⟩

end SpikingControllerNet
